import Mathlib

/-!
Verification of the Directory Synchronization Engine (sync.py).

The Python source is shallowly embedded:
* paths are Lean `String`s; the posix helpers from `os.path`
  (`dirname`, `basename`, `join`, `strip`, `split`, `join`-with-slash)
  are reimplemented on character lists;
* the network is an `Oracle` of responses keyed by the request data, and
  every embedded operation returns its result together with the `Event`
  trace (requests issued and log lines printed);
* the local filesystem is an inductive tree `FsTree`.
-/

/-! ## Python string and posix path helpers (character-list level) -/

/-- Python `s.lstrip("/")`. -/
def lstripSlashL (cs : List Char) : List Char :=
  cs.dropWhile (fun c => c = '/')

/-- Python `s.rstrip("/")`. -/
def rstripSlashL (cs : List Char) : List Char :=
  List.rdropWhile (fun c => c = '/') cs

/-- Python `s.strip("/")`. -/
def stripSlashL (cs : List Char) : List Char :=
  rstripSlashL (lstripSlashL cs)

/-- Python `os.path.dirname` (posixpath): everything up to the last slash,
with trailing slashes stripped unless the head is all slashes. -/
def pyDirnameL (cs : List Char) : List Char :=
  let head := (cs.reverse.dropWhile (fun c => c ≠ '/')).reverse
  if head = [] then []
  else if head.all (fun c => c = '/') then head
  else rstripSlashL head

/-- Python `os.path.basename` (posixpath): everything after the last slash. -/
def pyBasenameL (cs : List Char) : List Char :=
  (cs.reverse.takeWhile (fun c => c ≠ '/')).reverse

/-- Python `s.split("/")`. -/
def splitSlashL : List Char → List (List Char)
  | [] => [[]]
  | c :: cs =>
    if c = '/' then [] :: splitSlashL cs
    else
      match splitSlashL cs with
      | [] => [[c]]
      | p :: ps => (c :: p) :: ps

/-- Python `"/".join(parts)`. -/
def joinSlashL : List (List Char) → List Char
  | [] => []
  | [p] => p
  | p :: ps => p ++ '/' :: joinSlashL ps

/-- Python `os.path.join(a, b)` (posixpath, two arguments). -/
def pyJoinL (a b : List Char) : List Char :=
  if b.head? = some '/' then b
  else if a = [] ∨ a.getLast? = some '/' then a ++ b
  else a ++ '/' :: b

/-! ## String-level wrappers -/

def lstripSlash (s : String) : String := String.mk (lstripSlashL s.toList)

def dirnameS (s : String) : String := String.mk (pyDirnameL s.toList)

def basenameS (s : String) : String := String.mk (pyBasenameL s.toList)

def pyJoinS (a b : String) : String := String.mk (pyJoinL a.toList b.toList)

/-- Python `s.count("/")`, the sort key used for the directory plan. -/
def slashCount (s : String) : Nat := s.toList.count '/'

/-- Python `s or "/"` for strings: the empty string is falsy. -/
def orSlash (s : String) : String := if s = "" then "/" else s

/-! ## Folder Set Planner (main, lines 218-229) -/

/-- The remote parent directory of a file, as computed at sync.py:107 and
sync.py:222: `"/" + os.path.dirname(remote_path).lstrip("/")`. -/
def fileDirectory (remote : String) : String :=
  "/" ++ lstripSlash (dirnameS remote)

/-- All slash-segment prefixes of the remote parent directory of one file,
as inserted into `dirs_to_make` at sync.py:221-226.  A directory equal to
`"/"` contributes nothing. -/
def prefixesOfL (remote : List Char) : List (List Char) :=
  let d : List Char := '/' :: lstripSlashL (pyDirnameL remote)
  if d ≠ [] ∧ d ≠ ['/'] then
    let parts := splitSlashL (stripSlashL d)
    (List.range parts.length).map (fun i => '/' :: joinSlashL (parts.take (i + 1)))
  else []

def prefixesOf (remote : String) : List String :=
  (prefixesOfL remote.toList).map String.mk

/-- The deduplicated set `dirs_to_make` (sync.py:220-226).  Python iterates a
set in unspecified order; we fix one order, and every property proved below
is independent of that order. -/
def dirsToMake (files : List (String × String)) : List String :=
  ((files.map (fun fr => prefixesOf fr.2)).flatten).dedup

/-- The sort order of sync.py:229: ascending number of slashes. -/
def planOrder (a b : String) : Prop := slashCount a ≤ slashCount b

instance : DecidableRel planOrder :=
  fun a b => Nat.decLe (slashCount a) (slashCount b)

instance : IsTotal String planOrder :=
  ⟨fun a b => Nat.le_total (slashCount a) (slashCount b)⟩

instance : IsTrans String planOrder := ⟨fun _ _ _ h₁ h₂ => Nat.le_trans h₁ h₂⟩

/-- The ordered DirectoryPlan: `sorted(dirs_to_make, key=lambda x: x.count("/"))`
(sync.py:229). -/
def planDirs (files : List (String × String)) : List String :=
  List.insertionSort planOrder (dirsToMake files)

/-- Q is a proper descendant directory of P: Q extends P by a separator and a
further relative path. -/
def isProperDescendant (q p : String) : Prop := ∃ s : String, q = p ++ "/" ++ s

/-! ## Remote API model

Every network interaction of sync.py is mediated by an `Oracle` that maps the
data of a request to the response of the remote panel.  The embedded
operations return their Python return value together with the list of
observable `Event`s: requests issued and log lines printed. -/

/-- One entry of the `data` array returned by the files/list endpoint. -/
structure Entry where
  name : String
  is_file : Bool
  deriving DecidableEq, Repr

/-- Outcome of the listing request inside `folder_exists`: a status with a
parsed body, or a raised network/parse exception (the `except Exception`
branch at sync.py:66). -/
inductive ListResult where
  | ok (status : Nat) (entries : List Entry)
  | err
  deriving DecidableEq, Repr

/-- Observable trace of the engine: HTTP requests issued and log lines
printed. -/
inductive Event where
  | listReq (sid path : String)
  | createReq (sid name root : String)
  | destReq (sid directory : String)
  | transferReq (url lpath : String)
  | logListFailed (path : String) (status : Nat)
  | logCheckError (path : String)
  | logCreated (path : String)
  | logCreateFailed (name root : String) (status : Nat)
  | logEnsuring (serverName : String)
  | logStartUpload (serverName : String)
  | logDestFailed (rpath : String) (status : Nat)
  | logUploaded (lpath rpath : String)
  | logUploadFailed (lpath rpath : String) (status : Nat)
  deriving DecidableEq, Repr

/-- Remote responses, keyed by the data of each request. -/
structure Oracle where
  listResp : String → String → ListResult
  createStatus : String → String → String → Nat
  destStatus : String → String → Nat
  destUrl : String → String → String
  transferStatus : String → String → Nat

/-- sync.py:45-68, `folder_exists(session, server_id, path, directory)`.
The listing response is passed in by the caller (`create_folder` consults the
oracle); the query parameter is `path or "/"` (sync.py:52). -/
def folder_exists (sid : String) (resp : ListResult) (path directory : String) :
    Bool × List Event :=
  let q := orSlash path
  match resp with
  | ListResult.ok st entries =>
      if st = 200 then
        (entries.any (fun e => e.name == directory && !e.is_file),
         [Event.listReq sid q])
      else
        (false, [Event.listReq sid q, Event.logListFailed path st])
  | ListResult.err =>
      (false, [Event.listReq sid q, Event.logCheckError path])

/-- The module flag `DEBUG = False` (sync.py:12). -/
def DEBUG : Bool := false

/-- sync.py:82-104, `create_folder(session, id, name, root)`: existence check,
then a create request whose status 204 means created and 400 means already
exists; any other status is a failure.  (The body of `if DEBUG` at
sync.py:91-92 prints only, and `DEBUG` is false.) -/
def create_folder (o : Oracle) (sid name root : String) : Bool × List Event :=
  let fe := folder_exists sid (o.listResp sid (orSlash root)) root name
  if fe.1 then (true, fe.2)
  else
    let st := o.createStatus sid name (orSlash root)
    let ev := fe.2 ++ [Event.createReq sid name (orSlash root)]
    if st = 204 then (true, ev ++ [Event.logCreated (pyJoinS root name)])
    else if st = 400 then (true, ev)
    else (false, ev ++ [Event.logCreateFailed name root st])

/-- sync.py:106-138, `upload_file(session, server_id, local_path, remote_path)`.
Phase 1 requests a signed destination; a non-200 status returns `False`.
Phase 2 posts the file to the signed url; its status is only logged and the
function returns `True` regardless (sync.py:132-138). -/
def upload_file (o : Oracle) (sid lpath rpath : String) : Bool × List Event :=
  let directory := fileDirectory rpath
  let st := o.destStatus sid directory
  if st ≠ 200 then
    (false, [Event.destReq sid directory, Event.logDestFailed rpath st])
  else
    let url := o.destUrl sid directory
    let ts := o.transferStatus url lpath
    if ts = 200 ∨ ts = 204 then
      (true, [Event.destReq sid directory, Event.transferReq url lpath,
              Event.logUploaded lpath rpath])
    else
      (true, [Event.destReq sid directory, Event.transferReq url lpath,
              Event.logUploadFailed lpath rpath ts])

/-! ## Local Tree Scanner (is_hidden and build_files, sync.py:173-208) -/

/-- A local filesystem subtree: a plain file or a directory with children. -/
inductive FsTree where
  | file (name : String)
  | dir (name : String) (children : List FsTree)

/-- Bool test that a character list begins with a dot. -/
def startsWithDot : List Char → Bool
  | [] => false
  | c :: _ => c = '.'

/-- sync.py:173-186, `is_hidden(filepath)`, posix branch:
`os.path.basename(filepath).startswith(".")`.  (The Windows branch queries
the filesystem attribute through ctypes and is outside this embedding, which
models a posix host.) -/
def is_hidden (filepath : String) : Bool :=
  startsWithDot (pyBasenameL filepath.toList)

/-- A real directory entry name: nonempty and free of the path separator. -/
def wfName (n : String) : Bool :=
  !n.toList.isEmpty && !n.toList.contains '/'

mutual

def wfTree : FsTree → Bool
  | FsTree.file n => wfName n
  | FsTree.dir n cs => wfName n && wfForest cs

def wfForest : List FsTree → Bool
  | [] => true
  | t :: ts => wfTree t && wfForest ts

end

/-- Python `os.path.relpath(lp, "upload")` followed by the backslash
normalization of sync.py:204-205, specialized to the paths this walk
produces: they all begin with the seven characters of `upload/`, and the
backslash replacement is the identity on posix paths. -/
def relUpload (lp : String) : String :=
  match lp.toList with
  | 'u' :: 'p' :: 'l' :: 'o' :: 'a' :: 'd' :: '/' :: rest => String.mk rest
  | _ => lp

/-- The inner `for file in files` loop of sync.py:198-206: hidden files are
skipped after listing; the rest are emitted as
`(local_path, relpath(local_path, "upload"))`. -/
def filesHere (dp : String) : List FsTree → List (String × String)
  | [] => []
  | FsTree.file n :: ts =>
      let lp := pyJoinS dp n
      if is_hidden lp then filesHere dp ts
      else (lp, relUpload lp) :: filesHere dp ts
  | FsTree.dir _ _ :: ts => filesHere dp ts

mutual

/-- Python `os.walk` (top-down) as driven by sync.py:196-206: at each directory the
current files are emitted first, then the walk descends into the
subdirectories that survive the in-place prune
`dirs[:] = [d for d in dirs if not is_hidden(os.path.join(root, d))]`
(sync.py:197). -/
def walkNode (dp : String) : FsTree → List (String × String)
  | FsTree.file _ => []
  | FsTree.dir _ cs => filesHere dp cs ++ walkChildren dp cs

def walkChildren (dp : String) : List FsTree → List (String × String)
  | [] => []
  | FsTree.file _ :: ts => walkChildren dp ts
  | FsTree.dir n ccs :: ts =>
      (if is_hidden (pyJoinS dp n) then []
       else walkNode (pyJoinS dp n) (FsTree.dir n ccs)) ++ walkChildren dp ts

end

mutual

/-- The directories the walk of `walkNode` enters (the roots yielded by
`os.walk` after the prune), with the same prune-before-recursion logic. -/
def visitedNode (dp : String) : FsTree → List String
  | FsTree.file _ => []
  | FsTree.dir _ cs => dp :: visitedChildren dp cs

def visitedChildren (dp : String) : List FsTree → List String
  | [] => []
  | FsTree.file _ :: ts => visitedChildren dp ts
  | FsTree.dir n ccs :: ts =>
      (if is_hidden (pyJoinS dp n) then []
       else visitedNode (pyJoinS dp n) (FsTree.dir n ccs)) ++ visitedChildren dp ts

end

/-- sync.py:188-208, `build_files()`: walk the root `upload`.  When the root
does not exist, `os.walk` (whose `onerror` argument is left `None`) yields
nothing and the function returns the empty list. -/
def build_files (root : Option FsTree) : List (String × String) :=
  match root with
  | none => []
  | some t => walkNode "upload" t

/-- The directories visited by `build_files`. -/
def visitedDirs (root : Option FsTree) : List String :=
  match root with
  | none => []
  | some t => visitedNode "upload" t

/-! ## Target discovery (build_server_list, sync.py:140-171) -/

structure Server where
  UUID : String
  Identifier : String
  Name : String
  deriving DecidableEq, Repr

/-- The `attributes` object of one server in the panel listing. -/
structure RawServer where
  uuid : String
  identifier : String
  name : String
  docker_image : String
  deriving DecidableEq, Repr

def valid_images : List String := ["docker.io/sples1/k4ryuu-cs2:latest"]

def exclude_servers : List String := ["1v1"]

/-- Bool test that `needle` begins `hay`. -/
def hasPrefixL : List Char → List Char → Bool
  | [], _ => true
  | _ :: _, [] => false
  | a :: as, b :: bs => a == b && hasPrefixL as bs

/-- Python `needle in hay` on strings: substring containment. -/
def substrL (needle : List Char) : List Char → Bool
  | [] => hasPrefixL needle []
  | c :: cs => hasPrefixL needle (c :: cs) || substrL needle cs

def substrIn (needle hay : String) : Bool := substrL needle.toList hay.toList

/-- sync.py:140-171, `build_server_list`; the input is the parsed `data` array
of the panel listing (`None` when `fetch` failed).  The denylist loop at
sync.py:155-157 reads `for excluded in exclude_servers: if excluded in name:
continue`; that `continue` only advances the inner loop over
`exclude_servers`, so it never skips a server and the loop has no effect on
the result.  The debug filter is dead because `DEBUG` is false. -/
def build_server_list (data : Option (List RawServer)) : List Server :=
  match data with
  | none => []
  | some rows =>
      rows.filterMap (fun attrs =>
        if DEBUG && !(substrIn "Dev" attrs.name) then none
        else if !(valid_images.contains attrs.docker_image) then none
        else some (Server.mk attrs.uuid attrs.identifier attrs.name))

/-! ## Orchestrator (main, sync.py:210-237) -/

/-- The folder-materialization loop of sync.py:229-233: for each planned path,
`name = basename(path)`, `root = dirname(path) or "/"`, and a `create_folder`
failure raises an exception, aborting everything after it. -/
def materialize (o : Oracle) (sid : String) : List String → Bool × List Event
  | [] => (true, [])
  | p :: ps =>
      let name := basenameS p
      let root := orSlash (dirnameS p)
      match create_folder o sid name root with
      | (true, ev) =>
          let r := materialize o sid ps
          (r.1, ev ++ r.2)
      | (false, ev) => (false, ev)

/-- The upload loop of sync.py:236-237: every file is passed to
`upload_file` and the boolean result is discarded. -/
def runUploads (o : Oracle) (sid : String) : List (String × String) → List Event
  | [] => []
  | fr :: rest => (upload_file o sid fr.1 fr.2).2 ++ runUploads o sid rest

/-- The per-server body of main (sync.py:215-237): announce the server,
materialize the plan (recomputed per server from the shared file list), and
on success upload every file. -/
def runTarget (o : Oracle) (files : List (String × String)) (s : Server) :
    Bool × List Event :=
  let m := materialize o s.Identifier (planDirs files)
  match m with
  | (false, ev) => (false, Event.logEnsuring s.Name :: ev)
  | (true, ev) =>
      (true, Event.logEnsuring s.Name :: ev
              ++ Event.logStartUpload s.Name :: runUploads o s.Identifier files)

/-- The server loop of main (sync.py:215): servers are processed in order;
an exception raised by a failed `create_folder` (sync.py:233) propagates out
of `main`, so the remaining servers are never reached. -/
def runTargets (o : Oracle) (files : List (String × String)) :
    List Server → Bool × List Event
  | [] => (true, [])
  | s :: rest =>
      match runTarget o files s with
      | (true, ev) =>
          let r := runTargets o files rest
          (r.1, ev ++ r.2)
      | (false, ev) => (false, ev)

/-! ## Shape predicates for the scanner proofs -/

/-- A well-formed walk root path: nonempty and without a trailing slash. -/
def dpOK (dp : List Char) : Prop := dp ≠ [] ∧ dp.getLast? ≠ some '/'

def SegsOK (segs : List (List Char)) : Prop :=
  segs ≠ [] ∧ ∀ s ∈ segs, s ≠ [] ∧ (∀ c ∈ s, c ≠ '/') ∧ startsWithDot s = false

def ScanShape (dp : List Char) (pr : String × String) : Prop :=
  ∃ segs, SegsOK segs ∧ pr.1.toList = dp ++ '/' :: joinSlashL segs ∧
    pr.2 = relUpload pr.1

def VisShape (dp : List Char) (d : String) : Prop :=
  ∃ segs, SegsOK segs ∧ d.toList = dp ++ '/' :: joinSlashL segs

/-! ## Concrete fixtures used by witnesses and counterexamples -/

/-- Oracle on which every existence check fails with status 500 and every
folder creation fails with status 500. -/
def oracleAllFail : Oracle :=
  Oracle.mk (fun _ _ => ListResult.ok 500 []) (fun _ _ _ => 500)
    (fun _ _ => 200) (fun _ _ => "signed") (fun _ _ => 200)

/-- Oracle on which everything succeeds. -/
def oracleHappy : Oracle :=
  Oracle.mk (fun _ _ => ListResult.ok 200 []) (fun _ _ _ => 204)
    (fun _ _ => 200) (fun _ _ => "signed") (fun _ _ => 204)

/-- Oracle on which the signed-destination request succeeds but the transfer
to the signed url fails with status 500. -/
def oracleXferFail : Oracle :=
  Oracle.mk (fun _ _ => ListResult.ok 200 []) (fun _ _ _ => 204)
    (fun _ _ => 200) (fun _ _ => "signed") (fun _ _ => 500)

def demoFiles : List (String × String) :=
  [("upload/cfg/x.txt", "cfg/x.txt"), ("upload/cfg/sub/y.txt", "cfg/sub/y.txt")]

def serverA : Server := Server.mk "u1" "a1" "A"

def serverB : Server := Server.mk "u2" "b1" "B"

def demoTree : FsTree :=
  FsTree.dir "upload"
    [FsTree.dir "cfg" [FsTree.file "a.txt", FsTree.dir "sub" [FsTree.file "b.txt"]],
     FsTree.dir ".hidden" [FsTree.file "c.txt"],
     FsTree.file ".secret",
     FsTree.file "top.txt"]

/-! ## Helper lemmas -/

theorem folder_exists_true_iff (sid : String) (resp : ListResult)
    (path directory : String) :
    (folder_exists sid resp path directory).1 = true ↔
      ∃ entries, resp = ListResult.ok 200 entries ∧
        entries.any (fun e => e.name == directory && !e.is_file) = true := by
  cases resp with
  | ok st entries =>
      by_cases h : st = 200
      · subst h
        simp [folder_exists]
      · simp [folder_exists, h]
  | err => simp [folder_exists]

theorem destReq_mem_upload_file (o : Oracle) (sid lpath rpath : String) :
    Event.destReq sid (fileDirectory rpath) ∈ (upload_file o sid lpath rpath).2 := by
  unfold upload_file
  dsimp only
  split
  · simp
  · split <;> simp

theorem splitSlashL_ne_nil : ∀ cs, splitSlashL cs ≠ []
  | [] => by simp [splitSlashL]
  | c :: cs => by
      by_cases h : c = '/'
      · simp [splitSlashL, h]
      · simp only [splitSlashL, if_neg h]
        cases hs : splitSlashL cs with
        | nil => simp
        | cons p ps => simp

theorem splitSlashL_cons_ne (c : Char) (cs : List Char) (h : c ≠ '/') :
    ∃ p ps, splitSlashL (c :: cs) = (c :: p) :: ps := by
  simp only [splitSlashL, if_neg h]
  cases hs : splitSlashL cs with
  | nil => exact absurd hs (splitSlashL_ne_nil cs)
  | cons p ps => exact ⟨p, ps, rfl⟩

theorem joinSlashL_cons_ne_nil (w : List Char) (ws : List (List Char)) (hw : w ≠ []) :
    joinSlashL (w :: ws) ≠ [] := by
  cases ws with
  | nil => simpa [joinSlashL] using hw
  | cons x xs =>
      simp only [joinSlashL]
      intro hcontra
      rcases List.append_eq_nil.mp hcontra with ⟨h1, h2⟩
      exact hw h1

theorem lstripSlashL_head (cs : List Char) :
    lstripSlashL cs = [] ∨ ∃ c cs2, lstripSlashL cs = c :: cs2 ∧ c ≠ '/' := by
  induction cs with
  | nil => left; rfl
  | cons c cs ih =>
      by_cases h : c = '/'
      · simpa [lstripSlashL, List.dropWhile, h] using ih
      · right
        refine ⟨c, cs, ?_, h⟩
        simp [lstripSlashL, List.dropWhile, h]

theorem rstripSlashL_head (c : Char) (cs2 : List Char) (hc : c ≠ '/') :
    ∃ t2, rstripSlashL (c :: cs2) = c :: t2 := by
  have hne : rstripSlashL (c :: cs2) ≠ [] := by
    intro hnil
    unfold rstripSlashL at hnil
    have := (List.rdropWhile_eq_nil_iff).mp hnil
    exact hc (of_decide_eq_true (this c (by simp)))
  have hpre : rstripSlashL (c :: cs2) <+: c :: cs2 := List.rdropWhile_prefix _ _
  rcases hpre with ⟨t, ht⟩
  cases hr : rstripSlashL (c :: cs2) with
  | nil => exact absurd hr hne
  | cons d ds =>
      rw [hr] at ht
      injection ht with h1 h2
      exact ⟨ds, by rw [h1]⟩

theorem lstripSlashL_cons_slash (s : List Char) :
    lstripSlashL ('/' :: s) = lstripSlashL s := by
  simp [lstripSlashL, List.dropWhile]

theorem lstripSlashL_cons_ne (c : Char) (s : List Char) (h : c ≠ '/') :
    lstripSlashL (c :: s) = c :: s := by
  simp [lstripSlashL, List.dropWhile, h]

/-- No element of `dirs_to_make` is the bare root path. -/
theorem prefix_ne_root (remote : List Char) (p : List Char)
    (hp : p ∈ prefixesOfL remote) : p ≠ ['/'] := by
  unfold prefixesOfL at hp
  by_cases hcond : ('/' :: lstripSlashL (pyDirnameL remote) ≠ [] ∧
      '/' :: lstripSlashL (pyDirnameL remote) ≠ ['/'])
  · rw [if_pos hcond] at hp
    set s := lstripSlashL (pyDirnameL remote) with hs_def
    have hs_ne : s ≠ [] := by
      intro h0
      exact hcond.2 (by rw [h0])
    rcases lstripSlashL_head (pyDirnameL remote) with h0 | ⟨c, cs2, hsc, hc⟩
    · exact absurd (hs_def.trans h0) hs_ne
    · have hsc : s = c :: cs2 := hs_def.trans hsc
      have hstrip : stripSlashL ('/' :: s) = rstripSlashL s := by
        rw [stripSlashL, lstripSlashL_cons_slash, hsc, lstripSlashL_cons_ne c cs2 hc]
      rcases rstripSlashL_head c cs2 hc with ⟨t2, ht2⟩
      rw [hstrip, hsc, ht2] at hp
      rcases splitSlashL_cons_ne c t2 hc with ⟨w, ws, hw⟩
      rw [hw] at hp
      simp only [List.mem_map, List.mem_range] at hp
      rcases hp with ⟨i, hi, rfl⟩
      have : joinSlashL (((c :: w) :: ws).take (i + 1)) ≠ [] := by
        rw [List.take_succ_cons]
        exact joinSlashL_cons_ne_nil _ _ (by simp)
      intro hcontra
      injection hcontra with h1 h2
      exact this h2
  · rw [if_neg hcond] at hp
    cases hp

theorem mem_planDirs_of_mem_prefixes (files : List (String × String))
    (fr : String × String) (hfr : fr ∈ files) (p : String)
    (hp : p ∈ prefixesOf fr.2) : p ∈ planDirs files := by
  unfold planDirs
  rw [List.mem_insertionSort]
  unfold dirsToMake
  rw [List.mem_dedup]
  exact List.mem_flatten.mpr ⟨prefixesOf fr.2, List.mem_map_of_mem _ hfr, hp⟩

theorem planDirs_nodup (files : List (String × String)) : (planDirs files).Nodup :=
  (List.perm_insertionSort planOrder (dirsToMake files)).nodup_iff.mpr
    (List.nodup_dedup _)

theorem slashCount_append (a b : String) :
    slashCount (a ++ b) = slashCount a + slashCount b := by
  cases a with
  | mk da =>
      cases b with
      | mk db =>
          show (da ++ db).count '/' = da.count '/' + db.count '/'
          exact List.count_append '/' da db

theorem slashCount_lt_of_descendant (q p : String) (h : isProperDescendant q p) :
    slashCount p < slashCount q := by
  rcases h with ⟨s, rfl⟩
  rw [slashCount_append, slashCount_append]
  have : slashCount "/" = 1 := rfl
  omega

/-- In a list sorted by ascending slash count, a path with strictly fewer
slashes sits at a strictly smaller index. -/
theorem indexOf_lt_of_slashCount_lt (l : List String) (hs : l.Sorted planOrder)
    (p q : String) (hp : p ∈ l) (hq : q ∈ l)
    (h : slashCount p < slashCount q) : l.indexOf p < l.indexOf q := by
  by_contra hle
  push_neg at hle
  have hpl : l.indexOf p < l.length := List.indexOf_lt_length.mpr hp
  have hql : l.indexOf q < l.length := List.indexOf_lt_length.mpr hq
  rcases Nat.eq_or_lt_of_le hle with heq | hlt
  · have h1 : l.get ⟨l.indexOf p, hpl⟩ = p := List.indexOf_get hpl
    have h2 : l.get ⟨l.indexOf q, hql⟩ = q := List.indexOf_get hql
    have hfin : (⟨l.indexOf q, hql⟩ : Fin l.length) = ⟨l.indexOf p, hpl⟩ := Fin.ext heq
    rw [hfin, h1] at h2
    rw [h2] at h
    omega
  · have hrel := @List.Sorted.rel_get_of_lt String planOrder l hs
      ⟨l.indexOf q, hql⟩ ⟨l.indexOf p, hpl⟩ hlt
    rw [List.indexOf_get hql, List.indexOf_get hpl] at hrel
    have : slashCount q ≤ slashCount p := hrel
    omega

/-! ## Claim theorems -/

/-- C6: Materializer outcome classification.  `create_folder` succeeds iff
the existence check finds a non-file entry of the requested name, or the
create request returns 204 (created) or 400 (already exists); any other
create status yields failure, and a failing `create_folder` call aborts the
remaining directories of the current target with exactly the events of the
failing call. -/
theorem create_folder_classification :
    (∀ (o : Oracle) (sid name root : String),
      ((create_folder o sid name root).1 = true ↔
        ((∃ entries, o.listResp sid (orSlash root) = ListResult.ok 200 entries ∧
            entries.any (fun e => e.name == name && !e.is_file) = true)
          ∨ o.createStatus sid name (orSlash root) = 204
          ∨ o.createStatus sid name (orSlash root) = 400)))
  ∧ (∀ (o : Oracle) (sid p : String) (ps : List String),
      (create_folder o sid (basenameS p) (orSlash (dirnameS p))).1 = false →
        materialize o sid (p :: ps) =
          (false, (create_folder o sid (basenameS p) (orSlash (dirnameS p))).2)) := by
  constructor
  · intro o sid name root
    rw [← folder_exists_true_iff sid (o.listResp sid (orSlash root)) root name]
    unfold create_folder
    dsimp only
    by_cases hfe : (folder_exists sid (o.listResp sid (orSlash root)) root name).1
    · simp [hfe]
    · simp only [Bool.not_eq_true] at hfe
      simp only [hfe]
      by_cases h204 : o.createStatus sid name (orSlash root) = 204
      · simp [h204]
      · by_cases h400 : o.createStatus sid name (orSlash root) = 400
        · simp [h204, h400]
        · simp [h204, h400]
  · intro o sid p ps h
    cases hc : create_folder o sid (basenameS p) (orSlash (dirnameS p)) with
    | mk b ev =>
        rw [hc] at h
        simp only at h
        subst h
        simp [materialize, hc]

/-- C6 witness: on the all-failing oracle, creating folder cfg under the
root fails and materializing the plan for one path aborts immediately. -/
theorem create_folder_classification_witness :
    (create_folder oracleAllFail "a1" (basenameS "/cfg") (orSlash (dirnameS "/cfg"))).1 = false
  ∧ materialize oracleAllFail "a1" ["/cfg", "/cfg/sub"] =
      (false, (create_folder oracleAllFail "a1" (basenameS "/cfg")
                 (orSlash (dirnameS "/cfg"))).2) :=
  ⟨by decide,
   create_folder_classification.2 oracleAllFail "a1" "/cfg" ["/cfg/sub"] (by decide)⟩

/-- C7: Existence-check failure tolerance.  A non-200 listing status or a
raised listing error makes `folder_exists` log the problem and return false,
and a false existence check never aborts the target by itself: the create
request is still issued and alone decides the result of `create_folder`. -/
theorem folder_exists_tolerant :
    (∀ (sid path directory : String) (st : Nat) (entries : List Entry), st ≠ 200 →
       (folder_exists sid (ListResult.ok st entries) path directory).1 = false ∧
       Event.logListFailed path st ∈
         (folder_exists sid (ListResult.ok st entries) path directory).2)
  ∧ (∀ (sid path directory : String),
       (folder_exists sid ListResult.err path directory).1 = false ∧
       Event.logCheckError path ∈ (folder_exists sid ListResult.err path directory).2)
  ∧ (∀ (o : Oracle) (sid name root : String),
       (folder_exists sid (o.listResp sid (orSlash root)) root name).1 = false →
         Event.createReq sid name (orSlash root) ∈ (create_folder o sid name root).2 ∧
         ((create_folder o sid name root).1 = true ↔
           (o.createStatus sid name (orSlash root) = 204 ∨
            o.createStatus sid name (orSlash root) = 400))) := by
  refine ⟨?_, ?_, ?_⟩
  · intro sid path directory st entries hst
    simp [folder_exists, hst]
  · intro sid path directory
    simp [folder_exists]
  · intro o sid name root hfe
    unfold create_folder
    dsimp only
    simp only [hfe]
    by_cases h204 : o.createStatus sid name (orSlash root) = 204
    · simp [h204]
    · by_cases h400 : o.createStatus sid name (orSlash root) = 400
      · simp [h204, h400]
      · simp [h204, h400]

/-- C7 witness: a 500 listing response is tolerated, and on the all-failing
oracle the create request is still issued after the failed check. -/
theorem folder_exists_tolerant_witness :
    ((folder_exists "a1" (ListResult.ok 500 []) "/" "cfg").1 = false ∧
      Event.logListFailed "/" 500 ∈ (folder_exists "a1" (ListResult.ok 500 []) "/" "cfg").2)
  ∧ ((folder_exists "a1" ListResult.err "/" "cfg").1 = false ∧
      Event.logCheckError "/" ∈ (folder_exists "a1" ListResult.err "/" "cfg").2)
  ∧ (Event.createReq "a1" "cfg" (orSlash "/") ∈ (create_folder oracleAllFail "a1" "cfg" "/").2 ∧
      ((create_folder oracleAllFail "a1" "cfg" "/").1 = true ↔
        (oracleAllFail.createStatus "a1" "cfg" (orSlash "/") = 204 ∨
         oracleAllFail.createStatus "a1" "cfg" (orSlash "/") = 400))) :=
  ⟨folder_exists_tolerant.1 "a1" "/" "cfg" 500 [] (by decide),
   folder_exists_tolerant.2.1 "a1" "/" "cfg",
   folder_exists_tolerant.2.2 oracleAllFail "a1" "cfg" "/" (by decide)⟩

/-- C10: the boolean result of `upload_file` reflects only the
signed-destination phase: it is true exactly when the destination request
returns 200; in particular, when the transfer status is neither 200 nor 204
the function still returns true and only logs the failure. -/
theorem upload_result_dest_only :
    (∀ (o : Oracle) (sid lpath rpath : String),
       ((upload_file o sid lpath rpath).1 = true ↔
         o.destStatus sid (fileDirectory rpath) = 200))
  ∧ (∀ (o : Oracle) (sid lpath rpath : String),
       o.destStatus sid (fileDirectory rpath) = 200 →
       o.transferStatus (o.destUrl sid (fileDirectory rpath)) lpath ≠ 200 →
       o.transferStatus (o.destUrl sid (fileDirectory rpath)) lpath ≠ 204 →
       (upload_file o sid lpath rpath).1 = true ∧
       Event.logUploadFailed lpath rpath
           (o.transferStatus (o.destUrl sid (fileDirectory rpath)) lpath)
         ∈ (upload_file o sid lpath rpath).2) := by
  constructor
  · intro o sid lpath rpath
    unfold upload_file
    dsimp only
    split_ifs with h1 h2 <;> simp_all
  · intro o sid lpath rpath h200 ht1 ht2
    unfold upload_file
    dsimp only
    simp [h200, ht1, ht2]

/-- C10 witness: with a succeeding destination request and transfer status
500, `upload_file` returns true and logs the transfer failure. -/
theorem upload_result_dest_only_witness :
    ((upload_file oracleXferFail "a1" "upload/cfg/x.txt" "cfg/x.txt").1 = true ↔
      oracleXferFail.destStatus "a1" (fileDirectory "cfg/x.txt") = 200)
  ∧ ((upload_file oracleXferFail "a1" "upload/cfg/x.txt" "cfg/x.txt").1 = true ∧
     Event.logUploadFailed "upload/cfg/x.txt" "cfg/x.txt"
         (oracleXferFail.transferStatus
           (oracleXferFail.destUrl "a1" (fileDirectory "cfg/x.txt")) "upload/cfg/x.txt")
       ∈ (upload_file oracleXferFail "a1" "upload/cfg/x.txt" "cfg/x.txt").2) :=
  ⟨upload_result_dest_only.1 oracleXferFail "a1" "upload/cfg/x.txt" "cfg/x.txt",
   upload_result_dest_only.2 oracleXferFail "a1" "upload/cfg/x.txt" "cfg/x.txt"
     (by decide) (by decide) (by decide)⟩

/-- C9: Upload independence.  The upload loop is a homomorphism on the file
list, the outcome and trace of a single file are a function of that file and
its own responses only, and every file in the list has its destination
request issued regardless of what happens to the other files. -/
theorem upload_independence :
    (∀ (o : Oracle) (sid : String) (xs ys : List (String × String)),
       runUploads o sid (xs ++ ys) = runUploads o sid xs ++ runUploads o sid ys)
  ∧ (∀ (o : Oracle) (sid lpath rpath : String),
       runUploads o sid [(lpath, rpath)] = (upload_file o sid lpath rpath).2)
  ∧ (∀ (o : Oracle) (sid : String) (files : List (String × String))
       (fr : String × String), fr ∈ files →
         Event.destReq sid (fileDirectory fr.2) ∈ runUploads o sid files) := by
  refine ⟨?_, ?_, ?_⟩
  · intro o sid xs ys
    induction xs with
    | nil => simp [runUploads]
    | cons fr rest ih => simp [runUploads, ih]
  · intro o sid lpath rpath
    simp [runUploads]
  · intro o sid files fr hmem
    induction files with
    | nil => cases hmem
    | cons hd rest ih =>
        rw [List.mem_cons] at hmem
        rcases hmem with rfl | h
        · simp only [runUploads]
          exact List.mem_append_left _ (destReq_mem_upload_file o sid fr.1 fr.2)
        · simp only [runUploads]
          exact List.mem_append_right _ (ih h)

/-- C9 witness: on an oracle whose destination requests fail for the first
demo file directory but not the second, both destination requests are still
issued. -/
theorem upload_independence_witness :
    runUploads oracleXferFail "a1" (demoFiles ++ demoFiles) =
        runUploads oracleXferFail "a1" demoFiles ++ runUploads oracleXferFail "a1" demoFiles
  ∧ Event.destReq "a1" (fileDirectory "cfg/sub/y.txt") ∈
      runUploads oracleXferFail "a1" demoFiles :=
  ⟨upload_independence.1 oracleXferFail "a1" demoFiles demoFiles,
   upload_independence.2.2 oracleXferFail "a1" demoFiles
     ("upload/cfg/sub/y.txt", "cfg/sub/y.txt") (by decide)⟩

/-- C1 counterexample: with two targets A and B and an oracle on which every
folder creation fails, target A's fatal materialization failure prevents
target B from being processed at all (B is never announced, no request for
B's identifier b1 is ever issued), refuting the claim that subsequent
targets are still fully processed. -/
theorem target_isolation_counterexample :
    (runTargets oracleAllFail [("upload/cfg/x.txt", "cfg/x.txt")]
        [Server.mk "u1" "a1" "A", Server.mk "u2" "b1" "B"]).1 = false
  ∧ Event.logEnsuring "B" ∉
      (runTargets oracleAllFail [("upload/cfg/x.txt", "cfg/x.txt")]
        [Server.mk "u1" "a1" "A", Server.mk "u2" "b1" "B"]).2
  ∧ Event.listReq "b1" "/" ∉
      (runTargets oracleAllFail [("upload/cfg/x.txt", "cfg/x.txt")]
        [Server.mk "u1" "a1" "A", Server.mk "u2" "b1" "B"]).2
  ∧ Event.logStartUpload "A" ∉
      (runTargets oracleAllFail [("upload/cfg/x.txt", "cfg/x.txt")]
        [Server.mk "u1" "a1" "A", Server.mk "u2" "b1" "B"]).2 := by
  decide

/-- C1 amended: a fatal materialization failure on a target raises an
exception that aborts the entire run at that point: the failing target's
uploads are skipped and no subsequent target in the list is processed (the
run's trace ends with the failing target's events). -/
theorem target_failure_aborts_run (o : Oracle) (files : List (String × String))
    (s : Server) (rest : List Server)
    (h : (runTarget o files s).1 = false) :
    runTargets o files (s :: rest) = (false, (runTarget o files s).2) := by
  cases hc : runTarget o files s with
  | mk b ev =>
      rw [hc] at h
      simp only at h
      subst h
      simp [runTargets, hc]

/-- C1 witness: the amended statement at the concrete failing input. -/
theorem target_failure_aborts_run_witness :
    runTargets oracleAllFail [("upload/cfg/x.txt", "cfg/x.txt")] [serverA, serverB] =
      (false, (runTarget oracleAllFail [("upload/cfg/x.txt", "cfg/x.txt")] serverA).2) :=
  target_failure_aborts_run oracleAllFail [("upload/cfg/x.txt", "cfg/x.txt")]
    serverA [serverB] (by decide)

/-- C2: the denylist is ineffective.  The name Server 1v1 Arena contains the
denylisted substring 1v1, yet `build_server_list` keeps the server (its
image is in the allow list), because the `continue` at sync.py:157 only
advances the inner loop over `exclude_servers`.  The intended behavior per
the spec is to exclude it from the target list entirely. -/
theorem build_server_list_keeps_denylisted :
    ("1v1" : String) ∈ exclude_servers
  ∧ substrIn "1v1" "Server 1v1 Arena" = true
  ∧ build_server_list
        (some [RawServer.mk "u9" "i9" "Server 1v1 Arena"
          "docker.io/sples1/k4ryuu-cs2:latest"])
      = [Server.mk "u9" "i9" "Server 1v1 Arena"] := by
  decide

/-- C8 counterexample: when the scan root does not exist, `build_files`
succeeds and returns the empty list (and visits nothing), instead of the
fatal input error the claim requires: `os.walk` is invoked with its default
`onerror=None` and silently yields no directories. -/
theorem missing_root_counterexample :
    build_files none = [] ∧ visitedDirs none = [] := by
  decide

/-- C8 amended: a nonexistent scan root is not fatal; `build_files` returns
the empty file list, indistinguishable from scanning an existing empty root
directory. -/
theorem missing_root_empty_scan :
    build_files none = build_files (some (FsTree.dir "upload" [])) := by
  decide

/-- C3: Prefix completeness and plan well-formedness.  The plan has no
duplicates; every prefix generated from a file (its remote parent directory
and every proper ancestor of it) appears in the plan exactly once; the root
path is never in the plan; and a file with no directory component
contributes no entries at all. -/
theorem plan_prefix_complete (files : List (String × String)) :
    (planDirs files).Nodup
  ∧ (∀ fr, fr ∈ files → ∀ p, p ∈ prefixesOf fr.2 → (planDirs files).count p = 1)
  ∧ ("/" : String) ∉ planDirs files
  ∧ (∀ fr, fr ∈ files → dirnameS fr.2 = "" → prefixesOf fr.2 = []) := by
  refine ⟨planDirs_nodup files, ?_, ?_, ?_⟩
  · intro fr hfr p hp
    exact List.count_eq_one_of_mem (planDirs_nodup files)
      (mem_planDirs_of_mem_prefixes files fr hfr p hp)
  · intro hmem
    unfold planDirs at hmem
    rw [List.mem_insertionSort] at hmem
    unfold dirsToMake at hmem
    rw [List.mem_dedup] at hmem
    rcases List.mem_flatten.mp hmem with ⟨lst, hlst, hroot⟩
    rcases List.mem_map.mp hlst with ⟨fr, _, rfl⟩
    rcases List.mem_map.mp hroot with ⟨lp, hlp, hmk⟩
    have : lp = ['/'] := by
      have h2 : String.mk lp = String.mk ['/'] := hmk
      injection h2
    exact prefix_ne_root fr.2.toList lp hlp this
  · intro fr _ hdir
    have : pyDirnameL fr.2.toList = [] := by
      have h2 : String.mk (pyDirnameL fr.2.toList) = String.mk [] := hdir
      injection h2
    unfold prefixesOf prefixesOfL
    rw [this]
    simp [lstripSlashL]

/-- C3 witness: in the demo file list the ancestor directory of both files
appears exactly once, and a rootless file contributes nothing. -/
theorem plan_prefix_complete_witness :
    (planDirs demoFiles).count "/cfg" = 1 ∧ prefixesOf "top.txt" = [] :=
  ⟨(plan_prefix_complete demoFiles).2.1 ("upload/cfg/x.txt", "cfg/x.txt")
      (by decide) "/cfg" (by decide),
   (plan_prefix_complete [("upload/top.txt", "top.txt")]).2.2.2
      ("upload/top.txt", "top.txt") (by decide) (by decide)⟩

/-- C4: Topological order of the plan.  For any two plan entries where Q is
a proper descendant of P, the index of P is strictly smaller than the index
of Q: sorting the deduplicated prefix set by ascending slash count puts
every parent before its children. -/
theorem plan_topological_order (files : List (String × String)) (P Q : String)
    (hP : P ∈ planDirs files) (hQ : Q ∈ planDirs files)
    (hd : isProperDescendant Q P) :
    (planDirs files).indexOf P < (planDirs files).indexOf Q :=
  indexOf_lt_of_slashCount_lt (planDirs files)
    (List.sorted_insertionSort planOrder (dirsToMake files)) P Q hP hQ
    (slashCount_lt_of_descendant Q P hd)

/-- C4 witness: in the plan for one nested file, the parent directory
precedes its subdirectory. -/
theorem plan_topological_order_witness :
    (planDirs [("u2", "cfg/sub/b.txt")]).indexOf "/cfg" <
      (planDirs [("u2", "cfg/sub/b.txt")]).indexOf "/cfg/sub" :=
  plan_topological_order [("u2", "cfg/sub/b.txt")] "/cfg" "/cfg/sub"
    (by decide) (by decide) ⟨"sub", by decide⟩

theorem wfName_spec (n : String) (h : wfName n = true) :
    n.toList ≠ [] ∧ ∀ c ∈ n.toList, c ≠ '/' := by
  unfold wfName at h
  rw [Bool.and_eq_true] at h
  refine ⟨?_, ?_⟩
  · intro hnil
    rw [hnil] at h
    simp at h
  · intro c hc hceq
    have h2 := h.2
    rw [Bool.not_eq_true'] at h2
    have hmem : ('/' : Char) ∈ n.toList := hceq ▸ hc
    have : ('/' : Char) ∉ n.toList := by simpa using h2
    exact this hmem

theorem pyJoinL_eq (a b : List Char) (ha : a ≠ []) (hla : a.getLast? ≠ some '/')
    (hb : b.head? ≠ some '/') : pyJoinL a b = a ++ '/' :: b := by
  unfold pyJoinL
  rw [if_neg hb, if_neg]
  intro hor
  rcases hor with h1 | h2
  · exact ha h1
  · exact hla h2

theorem takeWhile_stop (xs ys : List Char) (h : ∀ x ∈ xs, x ≠ '/') :
    (xs ++ '/' :: ys).takeWhile (fun c => c ≠ '/') = xs := by
  induction xs with
  | nil => simp [List.takeWhile]
  | cons x xs ih =>
      have hx : x ≠ '/' := h x (by simp)
      have hdx : decide (x ≠ '/') = true := by simpa using hx
      simp only [List.cons_append, List.takeWhile, hdx, List.append_eq]
      rw [ih (fun y hy => h y (by simp [hy]))]

theorem pyBasenameL_append (a b : List Char) (hb : ∀ c ∈ b, c ≠ '/') :
    pyBasenameL (a ++ '/' :: b) = b := by
  unfold pyBasenameL
  have : (a ++ '/' :: b).reverse = b.reverse ++ '/' :: a.reverse := by
    rw [List.reverse_append, List.reverse_cons]
    simp
  rw [this, takeWhile_stop]
  · simp
  · intro x hx
    exact hb x (List.mem_reverse.mp hx)

theorem pyBasenameL_join (segs : List (List Char)) :
    segs ≠ [] → (∀ s ∈ segs, ∀ c ∈ s, c ≠ '/') → ∀ a : List Char,
    ∃ t ∈ segs, pyBasenameL (a ++ '/' :: joinSlashL segs) = t := by
  induction segs with
  | nil => intro h; exact absurd rfl h
  | cons s rest ih =>
      intro _ hsf a
      cases rest with
      | nil =>
          refine ⟨s, by simp, ?_⟩
          show pyBasenameL (a ++ '/' :: joinSlashL [s]) = s
          rw [show joinSlashL [s] = s from rfl]
          exact pyBasenameL_append a s (hsf s (by simp))
      | cons s2 rest2 =>
          have hjoin : joinSlashL (s :: s2 :: rest2) = s ++ '/' :: joinSlashL (s2 :: rest2) := rfl
          rcases ih (by simp) (fun u hu => hsf u (by simp [hu])) (a ++ '/' :: s) with ⟨t, ht, heq⟩
          refine ⟨t, by simp [ht], ?_⟩
          rw [hjoin]
          simpa using heq

theorem pyJoinS_spec (dp n : String) (hdp : dpOK dp.toList) (hn : wfName n = true) :
    (pyJoinS dp n).toList = dp.toList ++ '/' :: n.toList ∧
    is_hidden (pyJoinS dp n) = startsWithDot n.toList ∧
    dpOK (pyJoinS dp n).toList := by
  rcases wfName_spec n hn with ⟨hne, hsf⟩
  have hhead : n.toList.head? ≠ some '/' := by
    cases hcs : n.toList with
    | nil => exact absurd hcs hne
    | cons c rest =>
        simp only [List.head?]
        intro hc
        injection hc with hc
        exact hsf c (by rw [hcs]; simp) hc
  have htl : (pyJoinS dp n).toList = dp.toList ++ '/' :: n.toList := by
    show pyJoinL dp.toList n.toList = dp.toList ++ '/' :: n.toList
    exact pyJoinL_eq dp.toList n.toList hdp.1 hdp.2 hhead
  refine ⟨htl, ?_, ?_, ?_⟩
  · unfold is_hidden
    rw [htl, pyBasenameL_append dp.toList n.toList hsf]
  · rw [htl]
    intro hcontra
    rcases List.append_eq_nil.mp hcontra with ⟨_, h2⟩
    cases h2
  · rw [htl]
    rw [List.getLast?_append_of_ne_nil dp.toList (by simp)]
    have : ('/' :: n.toList) = ['/'] ++ n.toList := rfl
    rw [this, List.getLast?_append_of_ne_nil ['/'] hne]
    intro hlast
    exact hsf '/' (List.mem_of_mem_getLast? hlast) rfl

theorem joinSlashL_cons_of_ne (x : List Char) (ys : List (List Char)) (h : ys ≠ []) :
    joinSlashL (x :: ys) = x ++ '/' :: joinSlashL ys := by
  cases ys with
  | nil => exact absurd rfl h
  | cons y ys2 => rfl

theorem SegsOK_cons (n : List Char) (segs : List (List Char))
    (hn1 : n ≠ []) (hn2 : ∀ c ∈ n, c ≠ '/') (hn3 : startsWithDot n = false)
    (hs : SegsOK segs) : SegsOK (n :: segs) := by
  refine ⟨by simp, ?_⟩
  intro s hsm
  rcases List.mem_cons.mp hsm with rfl | hsm2
  · exact ⟨hn1, hn2, hn3⟩
  · exact hs.2 s hsm2

theorem SegsOK_single (n : List Char)
    (hn1 : n ≠ []) (hn2 : ∀ c ∈ n, c ≠ '/') (hn3 : startsWithDot n = false) :
    SegsOK [n] := by
  refine ⟨by simp, ?_⟩
  intro s hsm
  rcases List.mem_cons.mp hsm with rfl | hsm2
  · exact ⟨hn1, hn2, hn3⟩
  · cases hsm2

theorem filesHere_shape (dp : String) (hdp : dpOK dp.toList) :
    ∀ cs : List FsTree, wfForest cs = true →
      ∀ pr ∈ filesHere dp cs, ScanShape dp.toList pr := by
  intro cs
  induction cs with
  | nil => intro _ pr hpr; cases hpr
  | cons t ts ih =>
      intro hwf pr hpr
      have hwf2 : wfTree t = true ∧ wfForest ts = true := by
        have : wfForest (t :: ts) = (wfTree t && wfForest ts) := rfl
        rw [this, Bool.and_eq_true] at hwf
        exact hwf
      cases t with
      | dir n ccs =>
          rw [show filesHere dp (FsTree.dir n ccs :: ts) = filesHere dp ts from rfl] at hpr
          exact ih hwf2.2 pr hpr
      | file n =>
          have hn : wfName n = true := hwf2.1
          rcases pyJoinS_spec dp n hdp hn with ⟨htl, hhid, _⟩
          by_cases hh : is_hidden (pyJoinS dp n)
          · rw [show filesHere dp (FsTree.file n :: ts) =
                (if is_hidden (pyJoinS dp n) then filesHere dp ts
                 else (pyJoinS dp n, relUpload (pyJoinS dp n)) :: filesHere dp ts) from rfl,
              if_pos hh] at hpr
            exact ih hwf2.2 pr hpr
          · rw [show filesHere dp (FsTree.file n :: ts) =
                (if is_hidden (pyJoinS dp n) then filesHere dp ts
                 else (pyJoinS dp n, relUpload (pyJoinS dp n)) :: filesHere dp ts) from rfl,
              if_neg hh] at hpr
            rcases List.mem_cons.mp hpr with rfl | hpr2
            · rcases wfName_spec n hn with ⟨hne, hsf⟩
              have hdot : startsWithDot n.toList = false := by
                rw [← hhid]
                exact Bool.not_eq_true _ ▸ (by simpa using hh)
              refine ⟨[n.toList], SegsOK_single n.toList hne hsf hdot, ?_, rfl⟩
              simpa [joinSlashL] using htl
            · exact ih hwf2.2 pr hpr2

theorem fsTree_sizeOf_pos (t : FsTree) : 0 < sizeOf t := by
  cases t <;> simp

theorem walk_shape : ∀ m : Nat,
    (∀ t : FsTree, sizeOf t ≤ m → ∀ dp : String, wfTree t = true → dpOK dp.toList →
       ∀ pr ∈ walkNode dp t, ScanShape dp.toList pr)
  ∧ (∀ ts : List FsTree, sizeOf ts ≤ m → ∀ dp : String, wfForest ts = true →
       dpOK dp.toList → ∀ pr ∈ walkChildren dp ts, ScanShape dp.toList pr) := by
  intro m
  induction m with
  | zero =>
      constructor
      · intro t ht
        exfalso
        cases t <;> simp at ht
      · intro ts hts
        exfalso
        cases ts <;> simp at hts
  | succ m ih =>
      constructor
      · intro t ht dp hwf hdp pr hpr
        cases t with
        | file n => simp [walkNode] at hpr
        | dir n cs =>
            rw [show walkNode dp (FsTree.dir n cs) = filesHere dp cs ++ walkChildren dp cs
                  from by simp [walkNode]] at hpr
            have hwf2 : wfName n = true ∧ wfForest cs = true := by
              have h0 : wfTree (FsTree.dir n cs) = (wfName n && wfForest cs) := rfl
              rw [h0, Bool.and_eq_true] at hwf
              exact hwf
            have hsz : sizeOf cs ≤ m := by
              have h0 : sizeOf (FsTree.dir n cs) = 1 + sizeOf n + sizeOf cs := by simp
              rw [h0] at ht
              omega
            rcases List.mem_append.mp hpr with h1 | h2
            · exact filesHere_shape dp hdp cs hwf2.2 pr h1
            · exact ih.2 cs hsz dp hwf2.2 hdp pr h2
      · intro ts hts dp hwf hdp pr hpr
        cases ts with
        | nil => simp [walkChildren] at hpr
        | cons t ts2 =>
            have hw1 : wfTree t = true ∧ wfForest ts2 = true := by
              have h0 : wfForest (t :: ts2) = (wfTree t && wfForest ts2) := rfl
              rw [h0, Bool.and_eq_true] at hwf
              exact hwf
            have hsize : sizeOf (t :: ts2) = 1 + sizeOf t + sizeOf ts2 := by simp
            have hszt : sizeOf t ≤ m := by rw [hsize] at hts; omega
            have hszts : sizeOf ts2 ≤ m := by
              have h2 := fsTree_sizeOf_pos t
              rw [hsize] at hts
              omega
            cases t with
            | file n =>
                rw [show walkChildren dp (FsTree.file n :: ts2) = walkChildren dp ts2
                      from by simp [walkChildren]] at hpr
                exact ih.2 ts2 hszts dp hw1.2 hdp pr hpr
            | dir n ccs =>
                rw [show walkChildren dp (FsTree.dir n ccs :: ts2) =
                      (if is_hidden (pyJoinS dp n) then []
                       else walkNode (pyJoinS dp n) (FsTree.dir n ccs))
             ++ walkChildren dp ts2
                      from by simp [walkChildren]] at hpr
                rcases List.mem_append.mp hpr with h1 | h2
                · by_cases hh : is_hidden (pyJoinS dp n)
                  · rw [if_pos hh] at h1
                    cases h1
                  · rw [if_neg hh] at h1
                    have hn : wfName n = true ∧ wfForest ccs = true := by
                      have hq := hw1.1
                      have h0 : wfTree (FsTree.dir n ccs) = (wfName n && wfForest ccs) := rfl
                      rw [h0, Bool.and_eq_true] at hq
                      exact hq
                    rcases pyJoinS_spec dp n hdp hn.1 with ⟨htl, hhid, hdp2⟩
                    rcases ih.1 (FsTree.dir n ccs) hszt (pyJoinS dp n) hw1.1 hdp2 pr h1
                      with ⟨segs, hsegs, hfst, hsnd⟩
                    have hdot : startsWithDot n.toList = false := by
                      rw [← hhid]
                      simpa using hh
                    rcases wfName_spec n hn.1 with ⟨hne, hsf⟩
                    refine ⟨n.toList :: segs, SegsOK_cons _ _ hne hsf hdot hsegs, ?_, hsnd⟩
                    rw [hfst, htl, joinSlashL_cons_of_ne n.toList segs hsegs.1]
                    simp
                · exact ih.2 ts2 hszts dp hw1.2 hdp pr h2

theorem visited_shape : ∀ m : Nat,
    (∀ t : FsTree, sizeOf t ≤ m → ∀ dp : String, wfTree t = true → dpOK dp.toList →
       ∀ d ∈ visitedNode dp t, d = dp ∨ VisShape dp.toList d)
  ∧ (∀ ts : List FsTree, sizeOf ts ≤ m → ∀ dp : String, wfForest ts = true →
       dpOK dp.toList → ∀ d ∈ visitedChildren dp ts, VisShape dp.toList d) := by
  intro m
  induction m with
  | zero =>
      constructor
      · intro t ht
        exfalso
        cases t <;> simp at ht
      · intro ts hts
        exfalso
        cases ts <;> simp at hts
  | succ m ih =>
      constructor
      · intro t ht dp hwf hdp d hd
        cases t with
        | file n => simp [visitedNode] at hd
        | dir n cs =>
            rw [show visitedNode dp (FsTree.dir n cs) = dp :: visitedChildren dp cs
                  from by simp [visitedNode]] at hd
            have hwf2 : wfName n = true ∧ wfForest cs = true := by
              have h0 : wfTree (FsTree.dir n cs) = (wfName n && wfForest cs) := rfl
              rw [h0, Bool.and_eq_true] at hwf
              exact hwf
            have hsz : sizeOf cs ≤ m := by
              have h0 : sizeOf (FsTree.dir n cs) = 1 + sizeOf n + sizeOf cs := by simp
              rw [h0] at ht
              omega
            rcases List.mem_cons.mp hd with rfl | h2
            · left; rfl
            · right
              exact ih.2 cs hsz dp hwf2.2 hdp d h2
      · intro ts hts dp hwf hdp d hd
        cases ts with
        | nil => simp [visitedChildren] at hd
        | cons t ts2 =>
            have hw1 : wfTree t = true ∧ wfForest ts2 = true := by
              have h0 : wfForest (t :: ts2) = (wfTree t && wfForest ts2) := rfl
              rw [h0, Bool.and_eq_true] at hwf
              exact hwf
            have hsize : sizeOf (t :: ts2) = 1 + sizeOf t + sizeOf ts2 := by simp
            have hszt : sizeOf t ≤ m := by rw [hsize] at hts; omega
            have hszts : sizeOf ts2 ≤ m := by
              have h2 := fsTree_sizeOf_pos t
              rw [hsize] at hts
              omega
            cases t with
            | file n =>
                rw [show visitedChildren dp (FsTree.file n :: ts2) = visitedChildren dp ts2
                      from by simp [visitedChildren]] at hd
                exact ih.2 ts2 hszts dp hw1.2 hdp d hd
            | dir n ccs =>
                rw [show visitedChildren dp (FsTree.dir n ccs :: ts2) =
                      (if is_hidden (pyJoinS dp n) then []
                       else visitedNode (pyJoinS dp n) (FsTree.dir n ccs))
                        ++ visitedChildren dp ts2
                      from by simp [visitedChildren]] at hd
                rcases List.mem_append.mp hd with h1 | h2
                · by_cases hh : is_hidden (pyJoinS dp n)
                  · rw [if_pos hh] at h1
                    cases h1
                  · rw [if_neg hh] at h1
                    have hn : wfName n = true ∧ wfForest ccs = true := by
                      have hq := hw1.1
                      have h0 : wfTree (FsTree.dir n ccs) = (wfName n && wfForest ccs) := rfl
                      rw [h0, Bool.and_eq_true] at hq
                      exact hq
                    rcases pyJoinS_spec dp n hdp hn.1 with ⟨htl, hhid, hdp2⟩
                    have hdot : startsWithDot n.toList = false := by
                      rw [← hhid]
                      simpa using hh
                    rcases wfName_spec n hn.1 with ⟨hne, hsf⟩
                    rcases ih.1 (FsTree.dir n ccs) hszt (pyJoinS dp n) hw1.1 hdp2 d h1
                      with rfl | ⟨segs, hsegs, hdl⟩
                    · refine ⟨[n.toList], SegsOK_single n.toList hne hsf hdot, ?_⟩
                      rw [htl]
                      rfl
                    · refine ⟨n.toList :: segs, SegsOK_cons _ _ hne hsf hdot hsegs, ?_⟩
                      rw [hdl, htl, joinSlashL_cons_of_ne n.toList segs hsegs.1]
                      simp
                · exact ih.2 ts2 hszts dp hw1.2 hdp d h2

theorem relUpload_eq (lp : String) (x : List Char)
    (h : lp.toList = 'u' :: 'p' :: 'l' :: 'o' :: 'a' :: 'd' :: '/' :: x) :
    relUpload lp = String.mk x := by
  unfold relUpload
  rw [h]
  rfl

/-- C5: Hidden-file exclusion (posix rule).  Every file emitted by the
scanner has a relative path made only of non-hidden name segments (so a
hidden file or any descendant of a hidden directory never appears in the
output and the emitted file itself is not hidden), and every directory the
walk visits below the root likewise lies on an all-non-hidden path: hidden
directories are pruned before recursion. -/
theorem scanner_hidden_exclusion (t : FsTree) (hwf : wfTree t = true) :
    (∀ pr ∈ build_files (some t),
       is_hidden pr.1 = false ∧
       ∃ segs : List (List Char), segs ≠ [] ∧
         (∀ s ∈ segs, startsWithDot s = false) ∧
         pr.1.toList = "upload".toList ++ '/' :: joinSlashL segs ∧
         pr.2.toList = joinSlashL segs)
  ∧ (∀ d ∈ visitedDirs (some t), d = "upload" ∨
       ∃ segs : List (List Char), segs ≠ [] ∧
         (∀ s ∈ segs, startsWithDot s = false) ∧
         d.toList = "upload".toList ++ '/' :: joinSlashL segs) := by
  have hdp : dpOK ("upload" : String).toList := by
    constructor
    · decide
    · decide
  constructor
  · intro pr hpr
    rcases (walk_shape (sizeOf t)).1 t (Nat.le_refl _) "upload" hwf hdp pr hpr
      with ⟨segs, hsegs, hfst, hsnd⟩
    have hfst2 : pr.1.toList =
        'u' :: 'p' :: 'l' :: 'o' :: 'a' :: 'd' :: '/' :: joinSlashL segs := hfst
    constructor
    · unfold is_hidden
      rw [hfst2]
      have hshape : 'u' :: 'p' :: 'l' :: 'o' :: 'a' :: 'd' :: '/' :: joinSlashL segs =
          ['u', 'p', 'l', 'o', 'a', 'd'] ++ '/' :: joinSlashL segs := rfl
      rw [hshape]
      rcases pyBasenameL_join segs hsegs.1 (fun s hs => (hsegs.2 s hs).2.1)
        ['u', 'p', 'l', 'o', 'a', 'd'] with ⟨tg, htg, heq⟩
      rw [heq]
      exact (hsegs.2 tg htg).2.2
    · refine ⟨segs, hsegs.1, fun s hs => (hsegs.2 s hs).2.2, hfst, ?_⟩
      rw [hsnd, relUpload_eq pr.1 (joinSlashL segs) hfst2]
      rfl
  · intro d hd
    rcases (visited_shape (sizeOf t)).1 t (Nat.le_refl _) "upload" hwf hdp d hd
      with h | ⟨segs, hsegs, hdl⟩
    · left; exact h
    · right
      exact ⟨segs, hsegs.1, fun s hs => (hsegs.2 s hs).2.2, hdl⟩

/-- C5 witness: the demo tree, whose hidden directory and hidden file are
pruned, satisfies the hidden-exclusion property. -/
theorem scanner_hidden_exclusion_witness :
    wfTree demoTree = true
  ∧ ((∀ pr ∈ build_files (some demoTree),
        is_hidden pr.1 = false ∧
        ∃ segs : List (List Char), segs ≠ [] ∧
          (∀ s ∈ segs, startsWithDot s = false) ∧
          pr.1.toList = "upload".toList ++ '/' :: joinSlashL segs ∧
          pr.2.toList = joinSlashL segs)
    ∧ (∀ d ∈ visitedDirs (some demoTree), d = "upload" ∨
        ∃ segs : List (List Char), segs ≠ [] ∧
          (∀ s ∈ segs, startsWithDot s = false) ∧
          d.toList = "upload".toList ++ '/' :: joinSlashL segs)) :=
  ⟨by decide, scanner_hidden_exclusion demoTree (by decide)⟩
